import Mathlib

/-!
Verification of the MCP-bridge tool-discovery and orchestration layer.

This file is a shallow embedding, in Lean 4, of the pure logic of the
repository's Python sources:

* `enhanced_mcp_agent.py` — `categorize_server`, `get_server_priority`,
  the priority sort inside `initialize_agent`;
* `prepare_safe.py` / `prepare_mcp_tools.py` — the priority-tier scheduler,
  the per-server connect step, the aggregation loop and the cache write of
  `process_all_servers` / `initialize_mcp_servers`;
* `agent.py` / `test_tools.py` — the cache reader;
* `run_enhanced_agent.py` — the retry / fallback controller of
  `initialize_and_prepare`;
* `fallback_agent.py` — the fixed built-in fallback tool set.

Pure functions are translated as Lean functions; the effectful connect and
persist steps are translated as explicit functions from an outcome (which
branch the external world takes) to a record of the values returned and the
side effects performed on each source path, and the cache file is modelled
as explicit state.  Machine-level details of the JSON text encoding are out
of scope: the cache file is modelled at the JSON-value level (the external
`json` library is treated as a faithful serializer), while the byte-level
write discipline of the persist step is modelled separately as a list of
file operations.
-/

/-- JSON values, modelling the open nested structures that Python's `json`
module produces (`parameters` of a tool schema is such a value, opaque to
the core). -/
inductive Json where
  | null : Json
  | bool (b : Bool) : Json
  | num (n : Int) : Json
  | str (s : String) : Json
  | arr (items : List Json) : Json
  | obj (fields : List (String × Json)) : Json

/-- A tool schema record as built by both connectors:
`{"name": ..., "description": ..., "parameters": ...}`
(`prepare_mcp_tools.py` lines 75-79, `prepare_safe.py` generated script). -/
structure ToolSchema where
  name : String
  description : String
  parameters : Json

/-- Python's `s.lower()`, modelled per character (the repository's provider
names are ASCII; `Char.toLower` lowercases basic latin letters).  Defined by
structural recursion over the character data so that it evaluates inside
the kernel. -/
def pyLower (s : String) : String := String.mk (s.data.map Char.toLower)

/-- Whether `needle` occurs as a contiguous run inside `hay`
(Python's `needle in hay` on strings), on character lists. -/
def occursL (needle : List Char) : List Char → Bool
  | [] => needle.isEmpty
  | c :: t => needle.isPrefixOf (c :: t) || occursL needle t

/-- Python's `needle in hay` for strings. -/
def strOccurs (hay needle : String) : Bool :=
  occursL needle.toList hay.toList

/-- `categorize_server` from `enhanced_mcp_agent.py` lines 101-122: the
if/elif chain mapping a server name to a category string, translated
condition by condition (the Python source recomputes `server_name.lower()`
inside every condition, as here). -/
def categorizeServer (serverName : String) : String :=
  if strOccurs (pyLower serverName) "file"
      || pyLower serverName == "filesystem" then "filesystem"
  else if strOccurs (pyLower serverName) "duck"
      || strOccurs (pyLower serverName) "search"
      || strOccurs (pyLower serverName) "fire"
      || strOccurs (pyLower serverName) "crawl" then "search"
  else if strOccurs (pyLower serverName) "memory"
      || strOccurs (pyLower serverName) "graph" then "memory"
  else if strOccurs (pyLower serverName) "github"
      || strOccurs (pyLower serverName) "git" then "github"
  else if strOccurs (pyLower serverName) "brows"
      || strOccurs (pyLower serverName) "play" then "browser"
  else if strOccurs (pyLower serverName) "mail"
      || strOccurs (pyLower serverName) "gmail" then "email"
  else if strOccurs (pyLower serverName) "calendar"
      || strOccurs (pyLower serverName) "outlook" then "calendar"
  else if strOccurs (pyLower serverName) "airbnb" then "airbnb"
  else if strOccurs (pyLower serverName) "eleven" then "elevenlabs"
  else "other"

/-- The fixed category list of `categorize_server`, in its evaluation
order, ending with the default `"other"`. -/
def categoryNames : List String :=
  ["filesystem", "search", "memory", "github", "browser", "email",
   "calendar", "airbnb", "elevenlabs", "other"]

/-- The keyword table implicit in `categorize_server`'s if/elif chain: per
category, the substrings whose presence (case-insensitively) selects it.
The chain's redundant `lower == 'filesystem'` disjunct is subsumed by the
`"file"` substring test. -/
def keywordTable : List (String × List String) :=
  [("filesystem", ["file"]),
   ("search", ["duck", "search", "fire", "crawl"]),
   ("memory", ["memory", "graph"]),
   ("github", ["github", "git"]),
   ("browser", ["brows", "play"]),
   ("email", ["mail", "gmail"]),
   ("calendar", ["calendar", "outlook"]),
   ("airbnb", ["airbnb"]),
   ("elevenlabs", ["eleven"])]

/-- The specification's reading of `categorize`: first category of the
fixed table one of whose keywords occurs (case-insensitively) in the name,
default `"other"` (spec §4.2).  Declared from the spec's words, to be
compared with `categorizeServer`, which is declared from the source. -/
def firstMatchCategory (serverName : String) : String :=
  match keywordTable.find?
      (fun e => e.2.any (fun k => strOccurs (pyLower serverName) k)) with
  | some e => e.1
  | none => "other"

/-- `get_server_priority` from `enhanced_mcp_agent.py` lines 163-179:
the category → integer priority table, default 100. -/
def priorityTable : List (String × Nat) :=
  [("filesystem", 1), ("memory", 2), ("search", 3), ("github", 4),
   ("browser", 5), ("email", 6), ("calendar", 7), ("airbnb", 8),
   ("elevenlabs", 9), ("other", 10)]

/-- `get_server_priority`: `priorities.get(server_category, 100)`. -/
def getServerPriority (cat : String) : Nat :=
  ((priorityTable.find? (fun e => e.1 == cat)).map Prod.snd).getD 100

/-- The sort key used by `initialize_agent`:
`get_server_priority(categorize_server(server_name))`. -/
def serverSortKey (serverName : String) : Nat :=
  getServerPriority (categorizeServer serverName)

theorem categorizeServer_eq_firstMatch (s : String) :
    categorizeServer s = firstMatchCategory s := by
  unfold categorizeServer firstMatchCategory keywordTable
  simp only [List.find?, List.any_cons, List.any_nil, Bool.or_false,
    Bool.or_assoc]
  cases h1 : strOccurs (pyLower s) "file" with
  | true => simp only [h1, Bool.true_or]; rfl
  | false =>
    have h0 : (pyLower s == "filesystem") = false := by
      cases hb : pyLower s == "filesystem"
      · rfl
      · exfalso
        have he : pyLower s = "filesystem" := eq_of_beq hb
        rw [he] at h1
        exact absurd h1 (by decide)
    cases h2 : strOccurs (pyLower s) "duck"
        || (strOccurs (pyLower s) "search"
          || (strOccurs (pyLower s) "fire"
            || strOccurs (pyLower s) "crawl")) with
    | true => simp only [h1, h0, h2]; rfl
    | false =>
    cases h3 : strOccurs (pyLower s) "memory"
        || strOccurs (pyLower s) "graph" with
    | true => simp only [h1, h0, h2, h3]; rfl
    | false =>
    cases h4 : strOccurs (pyLower s) "github"
        || strOccurs (pyLower s) "git" with
    | true => simp only [h1, h0, h2, h3, h4]; rfl
    | false =>
    cases h5 : strOccurs (pyLower s) "brows"
        || strOccurs (pyLower s) "play" with
    | true => simp only [h1, h0, h2, h3, h4, h5]; rfl
    | false =>
    cases h6 : strOccurs (pyLower s) "mail"
        || strOccurs (pyLower s) "gmail" with
    | true => simp only [h1, h0, h2, h3, h4, h5, h6]; rfl
    | false =>
    cases h7 : strOccurs (pyLower s) "calendar"
        || strOccurs (pyLower s) "outlook" with
    | true => simp only [h1, h0, h2, h3, h4, h5, h6, h7]; rfl
    | false =>
    cases h8 : strOccurs (pyLower s) "airbnb" with
    | true => simp only [h1, h0, h2, h3, h4, h5, h6, h7, h8]; rfl
    | false =>
    cases h9 : strOccurs (pyLower s) "eleven" with
    | true => simp only [h1, h0, h2, h3, h4, h5, h6, h7, h8, h9]; rfl
    | false => simp only [h1, h0, h2, h3, h4, h5, h6, h7, h8, h9]; rfl

theorem categorizeServer_total (s : String) :
    categorizeServer s ∈ categoryNames := by
  unfold categorizeServer
  repeat' split
  all_goals decide

/-- C8: `categorize` is a pure, total, deterministic function: every
provider-name string maps to exactly one of the fixed categories (default
`other`); it agrees with case-insensitive first-match substring matching
against the fixed keyword sets in the fixed evaluation order
filesystem → search → memory → github → browser → email → calendar →
airbnb → elevenlabs → other; and calling it twice on the same string
yields the same category (in this pure embedding, a definitional fact,
stated explicitly). -/
theorem c8_categorize_pure_total (s : String) :
    categorizeServer s = firstMatchCategory s
      ∧ categorizeServer s ∈ categoryNames
      ∧ categorizeServer s = categorizeServer s :=
  ⟨categorizeServer_eq_firstMatch s, categorizeServer_total s, rfl⟩

/-- The explicit high-priority name list of `process_all_servers`
(`prepare_safe.py` line 221) and `initialize_mcp_servers`
(`prepare_mcp_tools.py` line 124). -/
def highPriority : List String := ["filesystem", "server-memory"]

/-- The explicit medium-priority name list of `process_all_servers`
(`prepare_safe.py` line 222) and `initialize_mcp_servers`
(`prepare_mcp_tools.py` line 125). -/
def mediumPriority : List String :=
  ["mcp-server-firecrawl", "duckduckgo-mcp-server", "server-github"]

/-- The priority-tier picking loop shared by `process_all_servers` and
`initialize_mcp_servers`:
`for name in plist: if name in copy: picked.append(name); copy.remove(name)`.
Returns the picked names (in `plist` order) and the remaining copy
(`List.erase` removes the first occurrence, as `list.remove` does). -/
def pickPriority (plist copy : List String) : List String × List String :=
  match plist with
  | [] => ([], copy)
  | p :: ps =>
    if copy.contains p then
      (p :: (pickPriority ps (copy.erase p)).1,
       (pickPriority ps (copy.erase p)).2)
    else pickPriority ps copy

/-- The scheduler of `process_all_servers` (`prepare_safe.py` lines
216-237) and `initialize_mcp_servers` (`prepare_mcp_tools.py` lines
119-140): high-priority names first, then medium-priority names, then the
remaining names in their original order. -/
def prioritizeServers (serverNames : List String) : List String :=
  (pickPriority highPriority serverNames).1
    ++ (pickPriority mediumPriority (pickPriority highPriority serverNames).2).1
    ++ (pickPriority mediumPriority (pickPriority highPriority serverNames).2).2

/-- Stable insertion of `x` after every element whose key is ≤ its key. -/
def insertStable (key : α → Nat) (x : α) : List α → List α
  | [] => [x]
  | y :: ys =>
    if key y ≤ key x then y :: insertStable key x ys else x :: y :: ys

/-- Stable sort by a Nat key, inserting elements left to right.  This is
extensionally the unique stable sort, hence a faithful model of Python's
(stable) `list.sort(key=...)`. -/
def stableSortBy (key : α → Nat) (l : List α) : List α :=
  l.foldl (fun acc x => insertStable key x acc) []

/-- The scheduler of `initialize_agent` (`enhanced_mcp_agent.py` lines
210-214): pair each name with `get_server_priority(categorize_server(name))`,
stable-sort by that priority, and project the names back out. -/
def sortServersByPriority (serverNames : List String) : List String :=
  (stableSortBy (fun e => e.2)
      (serverNames.map (fun n => (n, serverSortKey n)))).map Prod.fst

theorem insertStable_perm (key : α → Nat) (x : α) (l : List α) :
    (insertStable key x l).Perm (x :: l) := by
  induction l with
  | nil => exact List.Perm.refl _
  | cons y ys ih =>
    rw [insertStable]
    split
    · exact ((ih.cons y).trans (List.Perm.swap x y ys)).symm.symm
    · exact List.Perm.refl _

theorem stableSortBy_perm (key : α → Nat) (l : List α) :
    (stableSortBy key l).Perm l := by
  suffices h : ∀ (l acc : List α),
      (l.foldl (fun acc x => insertStable key x acc) acc).Perm (acc ++ l) by
    simpa using h l []
  intro l
  induction l with
  | nil => intro acc; simp
  | cons x xs ih =>
    intro acc
    rw [List.foldl_cons]
    refine (ih (insertStable key x acc)).trans ?_
    have h1 : (insertStable key x acc ++ xs).Perm ((x :: acc) ++ xs) :=
      (insertStable_perm key x acc).append_right xs
    refine h1.trans ?_
    simpa using (@List.perm_middle _ x acc xs).symm

theorem mem_insertStable {key : α → Nat} {x z : α} {l : List α}
    (h : z ∈ insertStable key x l) : z = x ∨ z ∈ l := by
  have := (insertStable_perm key x l).mem_iff.mp h
  simpa using this

theorem pairwise_insertStable {key : α → Nat} {x : α} {l : List α}
    (h : l.Pairwise (fun a b => key a ≤ key b)) :
    (insertStable key x l).Pairwise (fun a b => key a ≤ key b) := by
  induction l with
  | nil => simp [insertStable]
  | cons y ys ih =>
    rw [insertStable]
    rcases List.pairwise_cons.mp h with ⟨hy, hys⟩
    split
    · rename_i hle
      refine List.pairwise_cons.mpr ⟨?_, ih hys⟩
      intro z hz
      rcases mem_insertStable hz with rfl | hzys
      · exact hle
      · exact hy z hzys
    · rename_i hgt
      have hxy : key x ≤ key y := Nat.le_of_not_le hgt
      refine List.pairwise_cons.mpr ⟨?_, h⟩
      intro z hz
      rcases List.mem_cons.mp hz with rfl | hzys
      · exact hxy
      · exact hxy.trans (hy z hzys)

theorem pairwise_stableSortBy (key : α → Nat) (l : List α) :
    (stableSortBy key l).Pairwise (fun a b => key a ≤ key b) := by
  suffices h : ∀ (l acc : List α),
      acc.Pairwise (fun a b => key a ≤ key b) →
      (l.foldl (fun acc x => insertStable key x acc) acc).Pairwise
        (fun a b => key a ≤ key b) from
    h l [] (by simp)
  intro l
  induction l with
  | nil => intro acc hacc; simpa using hacc
  | cons x xs ih =>
    intro acc hacc
    rw [List.foldl_cons]
    exact ih _ (pairwise_insertStable hacc)

/-- Inserting `x` into a sorted list puts it after every element with its
key: the key-`k` sublist gains `x` at its end when `x` has key `k`, and is
unchanged otherwise. -/
theorem filter_insertStable {p : α → Nat} {x : α} {l : List α} (k : Nat)
    (hl : l.Pairwise (fun a b => p a ≤ p b)) :
    (insertStable p x l).filter (fun a => p a == k)
      = if p x == k
        then l.filter (fun a => p a == k) ++ [x]
        else l.filter (fun a => p a == k) := by
  induction l with
  | nil =>
    by_cases hx : p x == k
    · simp [insertStable, hx]
    · simp [insertStable, hx]
  | cons y ys ih =>
    have hys : ys.Pairwise (fun a b => p a ≤ p b) :=
      (List.pairwise_cons.mp hl).2
    rw [insertStable]
    by_cases hyx : p y ≤ p x
    · rw [if_pos hyx]
      by_cases hx : (p x == k) = true
      · rw [if_pos hx]
        by_cases hy : (p y == k) = true
        · rw [@List.filter_cons_of_pos _ (fun a => p a == k) y
              (insertStable p x ys) hy,
            @List.filter_cons_of_pos _ (fun a => p a == k) y ys hy,
            ih hys, if_pos hx]
          rfl
        · rw [@List.filter_cons_of_neg _ (fun a => p a == k) y
              (insertStable p x ys) hy,
            @List.filter_cons_of_neg _ (fun a => p a == k) y ys hy,
            ih hys, if_pos hx]
      · rw [if_neg hx]
        by_cases hy : (p y == k) = true
        · rw [@List.filter_cons_of_pos _ (fun a => p a == k) y
              (insertStable p x ys) hy,
            @List.filter_cons_of_pos _ (fun a => p a == k) y ys hy,
            ih hys, if_neg hx]
        · rw [@List.filter_cons_of_neg _ (fun a => p a == k) y
              (insertStable p x ys) hy,
            @List.filter_cons_of_neg _ (fun a => p a == k) y ys hy,
            ih hys, if_neg hx]
    · rw [if_neg hyx]
      by_cases hx : (p x == k) = true
      · rw [if_pos hx]
        have hk : p x = k := eq_of_beq hx
        have hknil : (y :: ys).filter (fun a => p a == k) = [] := by
          rw [List.filter_eq_nil_iff]
          intro z hz
          have hyz : p y ≤ p z := by
            rcases List.mem_cons.mp hz with rfl | hzys
            · exact Nat.le_refl _
            · exact (List.pairwise_cons.mp hl).1 z hzys
          have hlt : k < p z :=
            Nat.lt_of_lt_of_le (hk ▸ Nat.not_le.mp hyx) hyz
          intro hzk
          exact Nat.ne_of_gt hlt (eq_of_beq hzk)
        rw [@List.filter_cons_of_pos _ (fun a => p a == k) x (y :: ys) hx,
          hknil]
        rfl
      · rw [if_neg hx,
          @List.filter_cons_of_neg _ (fun a => p a == k) x (y :: ys) hx]

/-- Stability of `stableSortBy`: for every key value `k`, the sublist of
elements with key `k` is exactly the input's sublist with key `k`, in the
input's order — equal keys never swap. -/
theorem filter_stableSortBy (p : α → Nat) (l : List α) (k : Nat) :
    (stableSortBy p l).filter (fun a => p a == k)
      = l.filter (fun a => p a == k) := by
  suffices h : ∀ (l acc : List α), acc.Pairwise (fun a b => p a ≤ p b) →
      (l.foldl (fun acc x => insertStable p x acc) acc).filter
          (fun a => p a == k)
        = acc.filter (fun a => p a == k) ++ l.filter (fun a => p a == k) by
    simpa using h l [] (by simp)
  intro l
  induction l with
  | nil => intro acc _; simp
  | cons x xs ih =>
    intro acc hacc
    rw [List.foldl_cons, ih _ (pairwise_insertStable hacc),
      filter_insertStable k hacc]
    by_cases hx : (p x == k) = true
    · rw [if_pos hx, @List.filter_cons_of_pos _ (fun a => p a == k) x xs hx]
      simp
    · rw [if_neg hx, @List.filter_cons_of_neg _ (fun a => p a == k) x xs hx]

/-- Projecting the names back out of the key-`k` sublist of the paired
list recovers the key-`k` sublist of the names. -/
theorem mapFst_filter_key (names : List String) (k : Nat) :
    ((names.map (fun n => (n, serverSortKey n))).filter
        (fun e => e.2 == k)).map Prod.fst
      = names.filter (fun n => serverSortKey n == k) := by
  induction names with
  | nil => rfl
  | cons n rest ih =>
    by_cases hn : (serverSortKey n == k) = true
    · simp [List.filter_cons, hn, ih]
    · simp [List.filter_cons, hn, ih]

theorem pickPriority_perm (plist : List String) :
    ∀ copy : List String,
      ((pickPriority plist copy).1 ++ (pickPriority plist copy).2).Perm copy := by
  induction plist with
  | nil => intro copy; simp [pickPriority]
  | cons p ps ih =>
    intro copy
    rw [pickPriority]
    by_cases hc : copy.contains p
    · rw [if_pos hc]
      have hmem : p ∈ copy := by simpa using hc
      exact ((ih (copy.erase p)).cons p).trans (List.perm_cons_erase hmem).symm
    · rw [if_neg hc]
      exact ih copy

/-- If the filter predicate holds at `x`, filtering does not change whether
the list contains `x`. -/
theorem contains_filter_of_pred {l : List String} {pred : String → Bool}
    {x : String} (hx : pred x = true) :
    (l.filter pred).contains x = l.contains x := by
  simp [List.contains, List.elem_eq_mem, decide_eq_decide, List.mem_filter, hx]

/-- Characterization of the priority-tier picking loop on duplicate-free
lists: it picks exactly the priority names present, in priority-list
order, and leaves the other names in their original order. -/
theorem pickPriority_eq (plist : List String) :
    ∀ copy : List String, plist.Nodup → copy.Nodup →
      pickPriority plist copy
        = (plist.filter (fun p => copy.contains p),
           copy.filter (fun c => !plist.contains c)) := by
  induction plist with
  | nil =>
    intro copy _ _
    simp [pickPriority]
  | cons p ps ih =>
    intro copy hpl hcopy
    have hpn : p ∉ ps := (List.nodup_cons.mp hpl).1
    have hps : ps.Nodup := (List.nodup_cons.mp hpl).2
    rw [pickPriority]
    by_cases hc : copy.contains p
    · rw [if_pos hc]
      have hmem : p ∈ copy := by simpa using hc
      rw [ih (copy.erase p) hps (hcopy.erase p)]
      have hfst : (ps.filter (fun q => (copy.erase p).contains q))
          = ps.filter (fun q => copy.contains q) := by
        refine List.filter_congr ?_
        intro x hx
        have hxp : x ≠ p := fun h => hpn (h ▸ hx)
        simp [List.contains, List.elem_eq_mem, decide_eq_decide,
          List.mem_erase_of_ne hxp]
      have hsnd : ((copy.erase p).filter (fun c => !ps.contains c))
          = copy.filter (fun c => !(p :: ps).contains c) := by
        rw [hcopy.erase_eq_filter p, List.filter_filter]
        refine List.filter_congr ?_
        intro x _
        cases hxe : x == p with
        | true =>
          have hxeq : x = p := eq_of_beq hxe
          simp [List.contains_cons, hxe, hxeq, bne]
        | false =>
          have hxne : x ≠ p := ne_of_beq_false hxe
          simp [List.contains_cons, hxe, bne, hxne]
      rw [hfst, hsnd, List.filter_cons_of_pos hc]
    · rw [if_neg hc]
      rw [ih copy hps hcopy]
      have hfst : ((p :: ps).filter (fun q => copy.contains q))
          = ps.filter (fun q => copy.contains q) := by
        rw [List.filter_cons_of_neg hc]
      have hsnd : (copy.filter (fun c => !ps.contains c))
          = copy.filter (fun c => !(p :: ps).contains c) := by
        refine List.filter_congr ?_
        intro x hx
        have hxp : (x == p) = false := by
          cases hxe : x == p
          · rfl
          · exact absurd (by simpa [eq_of_beq hxe] using hx)
              (by simpa using hc)
        have hxne : x ≠ p := ne_of_beq_false hxp
        simp [List.contains_cons, hxp, hxne]
      rw [hfst, hsnd]

/-- The scheduler the claim describes (spec §4.3), assembled from the
spec's words: the high-priority list's matches in its order, then the
medium-priority list's matches in its order, then the remaining names
stably sorted by category-derived priority.  Declared for comparison with
the two schedulers declared from the source. -/
def scheduleSpec (serverNames : List String) : List String :=
  (pickPriority highPriority serverNames).1
    ++ (pickPriority mediumPriority (pickPriority highPriority serverNames).2).1
    ++ stableSortBy serverSortKey
        (pickPriority mediumPriority (pickPriority highPriority serverNames).2).2

/-- C3 counterexample: on the input
`["zeta-tool", "duck-search", "duckduckgo-mcp-server", "mcp-server-firecrawl"]`
neither scheduler of the source produces the order the claim describes.
`process_all_servers` / `initialize_mcp_servers` leave the two non-priority
names in input order (`zeta-tool` before the category-priority-3 name
`duck-search`) instead of sorting them by category priority, and
`initialize_agent` orders the two medium-priority names by their (equal)
category priority in input order (`duckduckgo-mcp-server` before
`mcp-server-firecrawl`) instead of by the medium-priority list's order. -/
theorem c3_scheduler_counterexample :
    prioritizeServers
        ["zeta-tool", "duck-search", "duckduckgo-mcp-server",
         "mcp-server-firecrawl"]
      ≠ scheduleSpec
        ["zeta-tool", "duck-search", "duckduckgo-mcp-server",
         "mcp-server-firecrawl"]
    ∧ sortServersByPriority
        ["zeta-tool", "duck-search", "duckduckgo-mcp-server",
         "mcp-server-firecrawl"]
      ≠ scheduleSpec
        ["zeta-tool", "duck-search", "duckduckgo-mcp-server",
         "mcp-server-firecrawl"] := by
  constructor <;> decide

/-- C3 (amended): the repository has two schedulers, neither of which
performs all three phases the claim describes.  The scheduler of
`process_all_servers` / `initialize_mcp_servers` emits the high-priority
list's exact matches in that list's order, then the medium-priority list's
exact matches in that list's order, then all remaining names in their
original input order (no category-priority sort).  The scheduler of
`initialize_agent` stably sorts the whole input by category-derived
integer priority, with no exact-match priority lists: its output is
pairwise nondecreasing in the sort key, is a permutation of the input, and
for every key value the names with that key appear in their original input
order (tie-order stability). -/
theorem c3_scheduler_amended (names : List String) (h : names.Nodup) :
    prioritizeServers names
        = highPriority.filter (fun p => names.contains p)
          ++ mediumPriority.filter (fun p => names.contains p)
          ++ names.filter
              (fun n => !highPriority.contains n && !mediumPriority.contains n)
      ∧ ((sortServersByPriority names).Pairwise
            (fun a b => serverSortKey a ≤ serverSortKey b)
        ∧ (sortServersByPriority names).Perm names
        ∧ ∀ k : Nat,
            (sortServersByPriority names).filter
                (fun n => serverSortKey n == k)
              = names.filter (fun n => serverSortKey n == k)) := by
  constructor
  · unfold prioritizeServers
    rw [pickPriority_eq highPriority names (by decide) h]
    dsimp only
    rw [pickPriority_eq mediumPriority
      (names.filter (fun c => !highPriority.contains c)) (by decide)
      (h.filter _)]
    dsimp only
    have hmid : (mediumPriority.filter
          (fun p => (names.filter (fun c => !highPriority.contains c)).contains p))
        = mediumPriority.filter (fun p => names.contains p) := by
      refine List.filter_congr ?_
      intro x hx
      have hx3 : x = "mcp-server-firecrawl" ∨ x = "duckduckgo-mcp-server"
          ∨ x = "server-github" := by simpa [mediumPriority] using hx
      have hhigh : (!highPriority.contains x) = true := by
        rcases hx3 with rfl | rfl | rfl <;> decide
      exact contains_filter_of_pred hhigh
    have hrest : ((names.filter (fun c => !highPriority.contains c)).filter
          (fun c => !mediumPriority.contains c))
        = names.filter
            (fun n => !highPriority.contains n && !mediumPriority.contains n) := by
      rw [List.filter_filter]
      refine List.filter_congr ?_
      intro x _
      exact Bool.and_comm _ _
    rw [hmid, hrest]
  · refine ⟨?_, ?_, ?_⟩
    · unfold sortServersByPriority
      rw [List.pairwise_map]
      have hpairs : ∀ e ∈ stableSortBy (fun e : String × Nat => e.2)
          (names.map (fun n => (n, serverSortKey n))),
          e.2 = serverSortKey e.1 := by
        intro e he
        have hmem : e ∈ names.map (fun n => (n, serverSortKey n)) :=
          (stableSortBy_perm _ _).mem_iff.mp he
        rcases List.mem_map.mp hmem with ⟨n, _, rfl⟩
        rfl
      refine (pairwise_stableSortBy
        (fun e : String × Nat => e.2) _).imp_of_mem ?_
      intro a b ha hb hr
      rw [hpairs a ha, hpairs b hb] at hr
      exact hr
    · unfold sortServersByPriority
      have hperm := (stableSortBy_perm (fun e : String × Nat => e.2)
        (names.map (fun n => (n, serverSortKey n)))).map Prod.fst
      have hid : ∀ l : List String,
          (l.map (fun n => (n, serverSortKey n))).map Prod.fst = l := by
        intro l
        induction l with
        | nil => rfl
        | cons x xs ih =>
          show x :: (xs.map (fun n => (n, serverSortKey n))).map Prod.fst
            = x :: xs
          rw [ih]
      rw [hid names] at hperm
      exact hperm
    · intro k
      unfold sortServersByPriority
      have hstep : (((stableSortBy (fun e : String × Nat => e.2)
            (names.map (fun n => (n, serverSortKey n)))).map Prod.fst).filter
              (fun n => serverSortKey n == k))
          = ((stableSortBy (fun e : String × Nat => e.2)
              (names.map (fun n => (n, serverSortKey n)))).filter
                (fun e => e.2 == k)).map Prod.fst := by
        rw [List.filter_map]
        congr 1
        refine List.filter_congr ?_
        intro e he
        have hmem : e ∈ names.map (fun n => (n, serverSortKey n)) :=
          (stableSortBy_perm _ _).mem_iff.mp he
        rcases List.mem_map.mp hmem with ⟨n, _, rfl⟩
        rfl
      rw [hstep,
        filter_stableSortBy (fun e : String × Nat => e.2)
          (names.map (fun n => (n, serverSortKey n))) k,
        mapFst_filter_key]

theorem c3_scheduler_amended_witness :
    (["filesystem", "zeta-tool"] : List String).Nodup
      ∧ (prioritizeServers ["filesystem", "zeta-tool"]
          = highPriority.filter
              (fun p => (["filesystem", "zeta-tool"] : List String).contains p)
            ++ mediumPriority.filter
              (fun p => (["filesystem", "zeta-tool"] : List String).contains p)
            ++ (["filesystem", "zeta-tool"] : List String).filter
              (fun n => !highPriority.contains n && !mediumPriority.contains n)
          ∧ ((sortServersByPriority ["filesystem", "zeta-tool"]).Pairwise
                (fun a b => serverSortKey a ≤ serverSortKey b)
            ∧ (sortServersByPriority ["filesystem", "zeta-tool"]).Perm
                ["filesystem", "zeta-tool"]
            ∧ ∀ k : Nat,
                (sortServersByPriority ["filesystem", "zeta-tool"]).filter
                    (fun n => serverSortKey n == k)
                  = (["filesystem", "zeta-tool"] : List String).filter
                      (fun n => serverSortKey n == k))) :=
  ⟨by decide, c3_scheduler_amended ["filesystem", "zeta-tool"] (by decide)⟩

/-- C9: for a duplicate-free input list of provider names, each scheduler's
output is a permutation of its input — prioritization never drops or
duplicates a provider. -/
theorem c9_scheduler_permutation (names : List String) (_h : names.Nodup) :
    (prioritizeServers names).Perm names
      ∧ (sortServersByPriority names).Perm names := by
  constructor
  · unfold prioritizeServers
    rw [List.append_assoc]
    exact ((pickPriority_perm mediumPriority _).append_left _).trans
      (pickPriority_perm highPriority names)
  · unfold sortServersByPriority
    have hperm := (stableSortBy_perm (fun e : String × Nat => e.2)
      (names.map (fun n => (n, serverSortKey n)))).map Prod.fst
    have hid : ∀ l : List String,
        (l.map (fun n => (n, serverSortKey n))).map Prod.fst = l := by
      intro l
      induction l with
      | nil => rfl
      | cons x xs ih =>
        show x :: (xs.map (fun n => (n, serverSortKey n))).map Prod.fst = x :: xs
        rw [ih]
    rw [hid names] at hperm
    exact hperm

theorem c9_scheduler_permutation_witness :
    (["filesystem", "zeta-tool"] : List String).Nodup
      ∧ ((prioritizeServers ["filesystem", "zeta-tool"]).Perm
            ["filesystem", "zeta-tool"]
          ∧ (sortServersByPriority ["filesystem", "zeta-tool"]).Perm
            ["filesystem", "zeta-tool"]) :=
  ⟨by decide, c9_scheduler_permutation ["filesystem", "zeta-tool"] (by decide)⟩

/-- A concrete tool schema used as witness data. -/
def demoTool : ToolSchema :=
  { name := "t", description := "", parameters := Json.null }

/-- Resolution of the requested server-name set against the configuration
(`prepare_safe.py` lines 199-208, `prepare_mcp_tools.py` lines 102-111):
an empty request means all configured servers; otherwise the request is
filtered to the names present in the configuration.  `requested = []`
covers Python's `not server_names` (both `None` and `[]`). -/
def resolveServerNames (configKeys requested : List String) : List String :=
  if requested = [] then configKeys
  else requested.filter (fun n => configKeys.contains n)

/-- One aggregation pass of `process_all_servers` (`prepare_safe.py` lines
241-255) / `initialize_mcp_servers` (`prepare_mcp_tools.py` lines
144-154): walk the prioritized order, skip names missing from the
configuration (`prepare_safe.py` line 244), call the connector, and record
an entry only when the returned tool list is non-empty (Python's
`if tools:` truthiness test). -/
def aggregateResults (configKeys order : List String)
    (connect : String → List ToolSchema) : List (String × List ToolSchema) :=
  order.foldl
    (fun acc s =>
      if configKeys.contains s then
        if (connect s).isEmpty then acc else acc ++ [(s, connect s)]
      else acc)
    []

/-- Result of one preparation run: the returned mapping and what was
written to the cache file (`none` = the write step was never reached). -/
structure PrepResult where
  result : List (String × List ToolSchema)
  written : Option (List (String × List ToolSchema))

/-- `process_all_servers` (`prepare_safe.py` lines 194-266) /
`initialize_mcp_servers` (`prepare_mcp_tools.py` lines 97-164) end to end,
with the cache file modelled explicitly: `written = none` when the
function returns before the cache write (the `return {}` on an empty
resolved set), `written = some cache` when it reaches the `json.dump`
call.  The connector is a parameter; per the source it returns a plain
list, `[]` for every failure. -/
def processAllServers (configKeys requested : List String)
    (connect : String → List ToolSchema) : PrepResult :=
  if resolveServerNames configKeys requested = [] then
    { result := [], written := none }
  else
    { result := aggregateResults configKeys
        (prioritizeServers (resolveServerNames configKeys requested)) connect,
      written := some (aggregateResults configKeys
        (prioritizeServers (resolveServerNames configKeys requested)) connect) }

/-- The cache file content after a run, given its previous content. -/
def cacheFileAfter (oldCache : List (String × List ToolSchema))
    (r : PrepResult) : List (String × List ToolSchema) :=
  match r.written with
  | none => oldCache
  | some c => c

/-- Invariant of the aggregation loop: every recorded entry holds exactly
the connector's (non-empty) tool list for its provider. -/
theorem aggregateResults_mem (configKeys order : List String)
    (connect : String → List ToolSchema) :
    ∀ e ∈ aggregateResults configKeys order connect,
      e.2 = connect e.1 ∧ e.2 ≠ [] := by
  suffices h : ∀ (ord : List String) (acc : List (String × List ToolSchema)),
      (∀ e ∈ acc, e.2 = connect e.1 ∧ e.2 ≠ []) →
      ∀ e ∈ ord.foldl
        (fun acc s =>
          if configKeys.contains s then
            if (connect s).isEmpty then acc else acc ++ [(s, connect s)]
          else acc) acc,
        e.2 = connect e.1 ∧ e.2 ≠ [] by
    exact fun e he => h order [] (by simp) e he
  intro ord
  induction ord with
  | nil => intro acc hacc e he; exact hacc e he
  | cons s rest ih =>
    intro acc hacc e he
    rw [List.foldl_cons] at he
    refine ih _ ?_ e he
    intro f hf
    by_cases hcfg : configKeys.contains s
    · rw [if_pos hcfg] at hf
      by_cases hemp : (connect s).isEmpty
      · rw [if_pos hemp] at hf
        exact hacc f hf
      · rw [if_neg hemp] at hf
        rcases List.mem_append.mp hf with h1 | h2
        · exact hacc f h1
        · have hfe : f = (s, connect s) := by simpa using h2
          subst hfe
          refine ⟨rfl, fun hnil => ?_⟩
          dsimp only at hnil
          rw [hnil] at hemp
          exact hemp rfl
    · rw [if_neg hcfg] at hf
      exact hacc f hf

/-- C6: after an aggregation run that reached the cache write, every key
of the persisted ToolCache maps to a non-empty tool list, and a provider
whose connect attempt produced no tools (the connector returns `[]` on
failure, timeout and the zero-tool success alike) is absent from the
cache entirely — never present with an empty list. -/
theorem c6_cache_entries_nonempty (configKeys requested : List String)
    (connect : String → List ToolSchema)
    (cache : List (String × List ToolSchema))
    (hw : (processAllServers configKeys requested connect).written = some cache) :
    (∀ e ∈ cache, e.2 ≠ [])
      ∧ ∀ s, connect s = [] → ∀ ts, (s, ts) ∉ cache := by
  have hcache : cache = aggregateResults configKeys
      (prioritizeServers (resolveServerNames configKeys requested)) connect := by
    unfold processAllServers at hw
    by_cases hres : resolveServerNames configKeys requested = []
    · rw [if_pos hres] at hw
      exact absurd hw (by simp)
    · rw [if_neg hres] at hw
      exact (Option.some.inj hw).symm
  constructor
  · intro e he
    exact (aggregateResults_mem _ _ _ e (hcache ▸ he)).2
  · intro s hcs ts hmem
    have hpair := aggregateResults_mem _ _ _ (s, ts) (hcache ▸ hmem)
    exact hpair.2 (hpair.1.trans hcs)

theorem c6_cache_entries_nonempty_witness :
    (processAllServers ["alpha"] [] (fun _ => [demoTool])).written
        = some [("alpha", [demoTool])]
      ∧ ((∀ e ∈ [("alpha", [demoTool])], e.2 ≠ [])
        ∧ ∀ s, (fun _ => [demoTool]) s = [] →
            ∀ ts, (s, ts) ∉ [("alpha", [demoTool])]) :=
  ⟨rfl, c6_cache_entries_nonempty ["alpha"] [] (fun _ => [demoTool])
    [("alpha", [demoTool])] rfl⟩

/-- C10: when the resolved provider set is empty (empty or missing
configuration, or no requested name present in the configuration), the
preparation run returns an empty mapping and returns before the
cache-write step, so the cache file is not written and the previously
persisted cache content is unchanged. -/
theorem c10_empty_resolution (configKeys requested : List String)
    (connect : String → List ToolSchema)
    (oldCache : List (String × List ToolSchema))
    (h : resolveServerNames configKeys requested = []) :
    (processAllServers configKeys requested connect).result = []
      ∧ (processAllServers configKeys requested connect).written = none
      ∧ cacheFileAfter oldCache (processAllServers configKeys requested connect)
          = oldCache := by
  unfold processAllServers
  rw [if_pos h]
  exact ⟨rfl, rfl, rfl⟩

theorem c10_empty_resolution_witness :
    resolveServerNames [] ["ghost"] = []
      ∧ ((processAllServers [] ["ghost"] (fun _ => [])).result = []
        ∧ (processAllServers [] ["ghost"] (fun _ => [])).written = none
        ∧ cacheFileAfter [("old", [demoTool])]
            (processAllServers [] ["ghost"] (fun _ => []))
          = [("old", [demoTool])]) :=
  ⟨by decide, c10_empty_resolution [] ["ghost"] (fun _ => [])
    [("old", [demoTool])] (by decide)⟩

/-- Lookup of a field in a JSON object's field list (first binding wins;
objects produced by `json.dump` from a Python dict have unique keys). -/
def lookupField (fields : List (String × Json)) (key : String) : Option Json :=
  match fields with
  | [] => none
  | (k, v) :: rest => if k == key then some v else lookupField rest key

/-- One tool schema as serialized by the connectors and `json.dump`
(`prepare_mcp_tools.py` lines 75-79): an object with `name`,
`description` and the pass-through `parameters`. -/
def encodeSchema (t : ToolSchema) : Json :=
  Json.obj [("name", Json.str t.name),
            ("description", Json.str t.description),
            ("parameters", t.parameters)]

/-- The persisted cache as a JSON value (`json.dump(all_tools, f)`,
`prepare_safe.py` line 260): an object mapping each provider name to the
array of its serialized tool schemas, in insertion order. -/
def encodeCache (cache : List (String × List ToolSchema)) : Json :=
  Json.obj (cache.map (fun e => (e.1, Json.arr (e.2.map encodeSchema))))

/-- The consumer's reading of one schema record (`agent.py` lines 28-44,
55-60 read `name` and `description` and pass `parameters` through). -/
def decodeSchema (j : Json) : Option ToolSchema :=
  match j with
  | Json.obj fields =>
    match lookupField fields "name", lookupField fields "description",
        lookupField fields "parameters" with
    | some (Json.str n), some (Json.str d), some p =>
      some { name := n, description := d, parameters := p }
    | _, _, _ => none
  | _ => none

/-- Decode a JSON array of schema records, in order. -/
def decodeSchemas (items : List Json) : Option (List ToolSchema) :=
  match items with
  | [] => some []
  | j :: rest =>
    match decodeSchema j, decodeSchemas rest with
    | some t, some ts => some (t :: ts)
    | _, _ => none

/-- Decode the cache object's entries, in order (the iteration
`for server_name, tools in tool_cache.items()` of `agent.py` lines 55-62
and `test_tools.py` lines 33-36). -/
def decodeCacheEntries (fields : List (String × Json)) :
    Option (List (String × List ToolSchema)) :=
  match fields with
  | [] => some []
  | (k, Json.arr items) :: rest =>
    match decodeSchemas items, decodeCacheEntries rest with
    | some ts, some cs => some ((k, ts) :: cs)
    | _, _ => none
  | _ :: _ => none

/-- Load of the persisted cache (`json.load` plus the consumer's reading
of the structure). -/
def decodeCache (j : Json) : Option (List (String × List ToolSchema)) :=
  match j with
  | Json.obj fields => decodeCacheEntries fields
  | _ => none

theorem decodeSchema_encodeSchema (t : ToolSchema) :
    decodeSchema (encodeSchema t) = some t := by
  cases t
  rfl

theorem decodeSchemas_encode (ts : List ToolSchema) :
    decodeSchemas (ts.map encodeSchema) = some ts := by
  induction ts with
  | nil => rfl
  | cons t rest ih =>
    show decodeSchemas (encodeSchema t :: rest.map encodeSchema)
      = some (t :: rest)
    simp [decodeSchemas, decodeSchema_encodeSchema, ih]

theorem decodeCacheEntries_encode (cache : List (String × List ToolSchema)) :
    decodeCacheEntries
        (cache.map (fun e => (e.1, Json.arr (e.2.map encodeSchema))))
      = some cache := by
  induction cache with
  | nil => rfl
  | cons e rest ih =>
    rcases e with ⟨k, ts⟩
    show decodeCacheEntries ((k, Json.arr (ts.map encodeSchema))
        :: rest.map (fun e => (e.1, Json.arr (e.2.map encodeSchema))))
      = some ((k, ts) :: rest)
    simp [decodeCacheEntries, decodeSchemas_encode, ih]

/-- C7: persisting the aggregate of a result set to the cache and loading
it back yields the same ToolCache — provider keys and per-provider tool
order are preserved exactly (the byte-level JSON serialization of the
external `json` library is taken as faithful; the cache file is modelled
at the JSON-value level). -/
theorem c7_cache_roundtrip (configKeys requested : List String)
    (connect : String → List ToolSchema) :
    decodeCache
        (encodeCache (processAllServers configKeys requested connect).result)
      = some (processAllServers configKeys requested connect).result := by
  show decodeCacheEntries _ = _
  exact decodeCacheEntries_encode _

/-- A step of the persist write (`prepare_safe.py` lines 258-260,
`prepare_mcp_tools.py` lines 157-159): `open(TOOL_CACHE_FILE, 'w')`
truncates the cache file in place, then `json.dump` streams the encoded
text into it character by character. -/
inductive FsOp where
  | truncate : FsOp
  | writeChar (c : Char) : FsOp

/-- Effect of one file operation on the cache file's content. -/
def applyOp (file : List Char) : FsOp → List Char
  | FsOp.truncate => []
  | FsOp.writeChar c => file ++ [c]

/-- Run a sequence of file operations over the cache file. -/
def runOps (ops : List FsOp) (file : List Char) : List Char :=
  ops.foldl applyOp file

/-- The operation sequence of one persist call with serialized payload
`payload`: truncate-in-place, then stream the payload. -/
def persistOps (payload : List Char) : List FsOp :=
  FsOp.truncate :: payload.map FsOp.writeChar

/-- The file content observed when the persist is interrupted (or a reader
looks) after `k` of its operations. -/
def runOpsPrefix (k : Nat) (ops : List FsOp) (file : List Char) : List Char :=
  runOps (ops.take k) file

theorem runOps_writeChars (l : List Char) :
    ∀ file : List Char, runOps (l.map FsOp.writeChar) file = file ++ l := by
  induction l with
  | nil => intro file; simp [runOps]
  | cons c rest ih =>
    intro file
    show runOps (FsOp.writeChar c :: rest.map FsOp.writeChar) file
      = file ++ c :: rest
    rw [runOps, List.foldl_cons]
    have h := ih (file ++ [c])
    simpa [runOps, applyOp] using h

/-- C4 counterexample: the persist step is not atomic.  With previous
cache content `"old-cache"` and new content `"new-cache"`, a persist
interrupted after its first operation leaves an empty file, and one
interrupted after five operations leaves `"new-"` — in both cases a
reader observes content that is neither the full previous cache nor the
full new cache, and the previous cache is destroyed rather than left
unchanged. -/
theorem c4_persist_counterexample :
    runOpsPrefix 1 (persistOps "new-cache".toList) "old-cache".toList = []
      ∧ runOpsPrefix 5 (persistOps "new-cache".toList) "old-cache".toList
          = "new-".toList
      ∧ ([] : List Char) ≠ "old-cache".toList
      ∧ ([] : List Char) ≠ "new-cache".toList
      ∧ "new-".toList ≠ "old-cache".toList
      ∧ "new-".toList ≠ "new-cache".toList
      ∧ runOps (persistOps "new-cache".toList) "old-cache".toList
          = "new-cache".toList := by
  decide

/-- C4 (amended): persist opens the cache file with mode `'w'`, which
truncates it in place, and then streams the new serialization into it; it
is not atomic.  An uninterrupted persist leaves exactly the new content;
a persist observed or interrupted after `k + 1` operations exposes the
`k`-character prefix of the new content (the empty file right after the
truncation), so a failed persist destroys the previously persisted cache
instead of leaving it unchanged. -/
theorem c4_persist_amended (payload oldContent : List Char) (k : Nat) :
    runOps (persistOps payload) oldContent = payload
      ∧ runOpsPrefix 0 (persistOps payload) oldContent = oldContent
      ∧ runOpsPrefix (k + 1) (persistOps payload) oldContent
          = payload.take k := by
  refine ⟨?_, rfl, ?_⟩
  · show runOps (FsOp.truncate :: payload.map FsOp.writeChar) oldContent
      = payload
    rw [runOps, List.foldl_cons]
    have h := runOps_writeChars payload []
    simpa [runOps, applyOp] using h
  · show runOps ((FsOp.truncate :: payload.map FsOp.writeChar).take (k + 1))
        oldContent = payload.take k
    rw [List.take_succ_cons, runOps, List.foldl_cons]
    have h := runOps_writeChars (payload.take k) []
    simp only [runOps] at h
    calc ((payload.map FsOp.writeChar).take k).foldl applyOp
          (applyOp oldContent FsOp.truncate)
        = ((payload.take k).map FsOp.writeChar).foldl applyOp [] := by
          rw [← List.map_take]
          rfl
      _ = [] ++ payload.take k := h
      _ = payload.take k := by simp

/-- The possible outcomes of one connect attempt in
`connect_to_mcp_server` (`prepare_mcp_tools.py` lines 44-94): success,
timeout of the bounded wait, an exception raised before the provider
subprocess was launched (process refused to start), or an exception raised
after the launch (malformed or unexpected response). -/
inductive ConnectOutcome where
  | ok (tools : List ToolSchema) : ConnectOutcome
  | timeout : ConnectOutcome
  | refused : ConnectOutcome
  | protocolError : ConnectOutcome

/-- What one call to `connect_to_mcp_server` returns and which effects it
has performed by the time it returns. -/
structure ConnectRun where
  returned : List ToolSchema
  subprocessLaunched : Bool
  exitStackClosed : Bool

/-- `connect_to_mcp_server` of `prepare_mcp_tools.py`, path by path.
Success: schemas collected, `await exit_stack.aclose()` (line 89), return
them.  Timeout: `except asyncio.TimeoutError` closes the stack (line 68)
and returns `[]`.  Refused (exception before launch): the outer `except`
(lines 92-94) returns `[]`; nothing was launched.  Protocol error
(exception after launch): the outer `except` returns `[]` without any
`aclose`, leaving the launched subprocess and its channel open. -/
def connectPrepareMcp : ConnectOutcome → ConnectRun
  | ConnectOutcome.ok tools =>
    { returned := tools, subprocessLaunched := true, exitStackClosed := true }
  | ConnectOutcome.timeout =>
    { returned := [], subprocessLaunched := true, exitStackClosed := true }
  | ConnectOutcome.refused =>
    { returned := [], subprocessLaunched := false, exitStackClosed := false }
  | ConnectOutcome.protocolError =>
    { returned := [], subprocessLaunched := true, exitStackClosed := false }

/-- Whether an outcome is one of the failure modes. -/
def isFailureOutcome : ConnectOutcome → Bool
  | ConnectOutcome.ok _ => false
  | ConnectOutcome.timeout => true
  | ConnectOutcome.refused => true
  | ConnectOutcome.protocolError => true

/-- C2 (code bug): on the protocol-error path — an exception raised after
the subprocess was launched, such as a malformed handshake response — the
outer `except` of `connect_to_mcp_server` (`prepare_mcp_tools.py` lines
92-94) returns without awaiting `exit_stack.aclose()`, so the launched
subprocess and its channel are not torn down before `connect` returns,
contradicting the claim and the code's own comment
(`# Close connection to avoid leaving processes running`).  The success
and timeout paths do close the stack. -/
theorem c2_connector_teardown :
    (connectPrepareMcp ConnectOutcome.protocolError).subprocessLaunched = true
      ∧ (connectPrepareMcp ConnectOutcome.protocolError).exitStackClosed = false
      ∧ (connectPrepareMcp ConnectOutcome.timeout).exitStackClosed = true
      ∧ (connectPrepareMcp (ConnectOutcome.ok [demoTool])).exitStackClosed
          = true :=
  ⟨rfl, rfl, rfl, rfl⟩

/-- C5 counterexample: `connect` does not return a discriminated result.
The timeout, refused and protocol-error paths all return the same value,
the empty list, which also equals a successful result carrying an empty
tool list — no `ConnectError` kinds exist to distinguish. -/
theorem c5_connect_errors_counterexample :
    (connectPrepareMcp ConnectOutcome.timeout).returned
        = (connectPrepareMcp ConnectOutcome.refused).returned
      ∧ (connectPrepareMcp ConnectOutcome.timeout).returned
        = (connectPrepareMcp ConnectOutcome.protocolError).returned
      ∧ (connectPrepareMcp ConnectOutcome.timeout).returned
        = (connectPrepareMcp (ConnectOutcome.ok [])).returned :=
  ⟨rfl, rfl, rfl⟩

/-- C5 (amended): every failure mode of `connect_to_mcp_server` — timeout,
refused start, protocol error — returns `[]`, indistinguishable from each
other and from a success with zero tools; error kinds are distinguished
only in log messages, not in the returned value. -/
theorem c5_connect_errors_amended (o₁ o₂ : ConnectOutcome)
    (h₁ : isFailureOutcome o₁ = true) (h₂ : isFailureOutcome o₂ = true) :
    (connectPrepareMcp o₁).returned = []
      ∧ (connectPrepareMcp o₁).returned = (connectPrepareMcp o₂).returned
      ∧ (connectPrepareMcp o₁).returned
        = (connectPrepareMcp (ConnectOutcome.ok [])).returned := by
  cases o₁ <;> cases o₂ <;>
    simp_all [connectPrepareMcp, isFailureOutcome]

theorem c5_connect_errors_amended_witness :
    isFailureOutcome ConnectOutcome.timeout = true
      ∧ isFailureOutcome ConnectOutcome.refused = true
      ∧ ((connectPrepareMcp ConnectOutcome.timeout).returned = []
        ∧ (connectPrepareMcp ConnectOutcome.timeout).returned
          = (connectPrepareMcp ConnectOutcome.refused).returned
        ∧ (connectPrepareMcp ConnectOutcome.timeout).returned
          = (connectPrepareMcp (ConnectOutcome.ok [])).returned) :=
  ⟨rfl, rfl,
    c5_connect_errors_amended ConnectOutcome.timeout ConnectOutcome.refused
      rfl rfl⟩

/-- The names of the two built-in tools the enhanced agent starts with
(`enhanced_mcp_agent.py` line 82: `tools=[get_weather, list_files]`). -/
def baseToolNames : List String := ["get_weather", "list_files"]

/-- The fixed built-in fallback tool set of `fallback_agent.py` (line 131:
`tools=[get_weather, list_files, read_file_content, write_file_content,
create_dir, search_for_files]`). -/
def fallbackToolNames : List String :=
  ["get_weather", "list_files", "read_file_content", "write_file_content",
   "create_dir", "search_for_files"]

/-- Run outcome of the launcher: `success` = `initialize_agent` returned
normally; `degraded` = the launcher substituted the fallback agent after
exhausting its retries. -/
inductive RunOutcome where
  | success : RunOutcome
  | degraded : RunOutcome
deriving DecidableEq

/-- The agent's tool names after `initialize_agent`
(`enhanced_mcp_agent.py` lines 182-251) completes: the request is filtered
against the configuration; an empty set returns early with the agent
unchanged (base tools only); otherwise the names are sorted by category
priority and the agent's list is extended with each connected server's
tools in scheduled order (a failed connect contributes `[]`). -/
def initAgentToolNames (configKeys names : List String)
    (connect : String → List ToolSchema) : List String :=
  if names.filter (fun n => configKeys.contains n) = [] then baseToolNames
  else
    baseToolNames
      ++ (sortServersByPriority
            (names.filter (fun n => configKeys.contains n))).foldl
          (fun acc s => acc ++ (connect s).map ToolSchema.name) []

/-- `initialize_and_prepare` (`run_enhanced_agent.py` lines 24-98), with
the retry loop abstracted over which attempts raise: attempt `k` of the
`while retry_count <= max_retries` loop either raises (`raises k = true`)
or completes.  A completing attempt returns the enhanced agent's tools as
computed by `initialize_agent` on the resolved name set (an empty request
resolves to all configured servers, lines 29-35); if every attempt raises
and `ignore_errors` is set, the launcher swaps in the fallback agent
(degraded path, lines 68-87); with `ignore_errors` false the last error
propagates (lines 88-90, modelled as `Except.error`).  `initialize_agent`
itself absorbs per-provider connect failures, so a run in which every
provider fails to connect completes normally — it does not raise. -/
def initAndPrepare (configKeys names : List String)
    (connect : String → List ToolSchema) (raises : Nat → Bool)
    (maxRetries : Nat) (ignoreErrors : Bool) :
    Except Unit (RunOutcome × List String) :=
  if (List.range (maxRetries + 1)).any (fun k => !raises k) then
    Except.ok (RunOutcome.success,
      initAgentToolNames configKeys
        (if names = [] then configKeys else names) connect)
  else if ignoreErrors then
    Except.ok (RunOutcome.degraded, fallbackToolNames)
  else Except.error ()

/-- C1 counterexample: a run in which zero providers succeed (the single
configured provider's connect yields no tools on every attempt) does not
reach the fallback path: `initialize_agent` completes normally, the loop
breaks on attempt 0 regardless of the retry budget, and the launcher
reports success with only the enhanced agent's two base built-in tools —
not the six-tool fallback set and not a degraded outcome. -/
theorem c1_fallback_counterexample :
    initAndPrepare ["filesystem"] [] (fun _ => []) (fun _ => false) 2 true
        = Except.ok (RunOutcome.success, baseToolNames)
      ∧ baseToolNames ≠ fallbackToolNames
      ∧ RunOutcome.success ≠ RunOutcome.degraded := by
  refine ⟨rfl, by decide, by decide⟩

/-- C1 (amended): the fallback substitution is triggered by every
initialization attempt raising an exception (not by zero providers
succeeding).  When all `max_retries + 1` attempts raise and
`ignore_errors` is set, the final tool set is exactly the fixed built-in
fallback set {get_weather, list_files, read_file_content,
write_file_content, create_dir, search_for_files} — non-empty and
requiring no external process — and the outcome is Degraded,
distinguishable from Success. -/
theorem c1_fallback_amended (raises : Nat → Bool) (maxRetries : Nat)
    (h : ∀ k, k ≤ maxRetries → raises k = true) :
    (∀ configKeys names connect,
        initAndPrepare configKeys names connect raises maxRetries true
          = Except.ok (RunOutcome.degraded, fallbackToolNames))
      ∧ fallbackToolNames ≠ []
      ∧ RunOutcome.degraded ≠ RunOutcome.success := by
  refine ⟨?_, by decide, by decide⟩
  intro configKeys names connect
  unfold initAndPrepare
  have hany : (List.range (maxRetries + 1)).any (fun k => !raises k)
      = false := by
    rw [List.any_eq_false]
    intro k hk
    have hkle : k ≤ maxRetries := Nat.lt_succ_iff.mp (List.mem_range.mp hk)
    simp [h k hkle]
  rw [hany]
  rfl

theorem c1_fallback_amended_witness :
    (∀ k, k ≤ 2 → (fun _ => true) k = true)
      ∧ (initAndPrepare ["filesystem"] [] (fun _ => []) (fun _ => true) 2 true
          = Except.ok (RunOutcome.degraded, fallbackToolNames)
        ∧ fallbackToolNames ≠ []
        ∧ RunOutcome.degraded ≠ RunOutcome.success) :=
  ⟨fun _ _ => rfl,
    (c1_fallback_amended (fun _ => true) 2 (fun _ _ => rfl)).1
      ["filesystem"] [] (fun _ => []),
    (c1_fallback_amended (fun _ => true) 2 (fun _ _ => rfl)).2.1,
    (c1_fallback_amended (fun _ => true) 2 (fun _ _ => rfl)).2.2⟩
